import Mathlib

/-!
Shallow embedding of the weekly-report generator (src/app.py and
src/api/index.py) and verification of its specification claims.

Strings are modelled as lists of Unicode code points (`List Nat`); Python's
`str.lower`, `str.strip` and the regex character class `\s` are modelled on
their ASCII behaviour, which is the relevant one for all provider-name and
duration processing in this program.  Numeric cells are modelled as rationals,
and pandas/numpy rounding (`round(n)`) as exact half-to-even rounding of a
rational; durations and counts in this pipeline are exact decimals, so no
binary floating-point artefact is involved in any claim.
-/

set_option maxRecDepth 8000

namespace ReportGen

/-- Code points of a Python string literal. -/
def pyStr (s : String) : List Nat := s.data.map Char.toNat

/-- ASCII lower-casing of one code point, modelling Python `str.lower`. -/
def lowerCode (c : Nat) : Nat := if 65 ≤ c ∧ c ≤ 90 then c + 32 else c

/-- ASCII upper-casing of one code point, modelling Python `str.upper`. -/
def upperCode (c : Nat) : Nat := if 97 ≤ c ∧ c ≤ 122 then c - 32 else c

def pyLower (l : List Nat) : List Nat := l.map lowerCode

def pyUpper (l : List Nat) : List Nat := l.map upperCode

/-- Whitespace test, modelling Python `str.strip` and the regex class `\s`
on ASCII: space, tab, newline, carriage return, form feed, vertical tab. -/
def isSpaceCode (c : Nat) : Bool :=
  c == 32 || c == 9 || c == 10 || c == 13 || c == 12 || c == 11

def lstrip (l : List Nat) : List Nat := l.dropWhile isSpaceCode

def rstrip (l : List Nat) : List Nat := (l.reverse.dropWhile isSpaceCode).reverse

/-- Python `str.strip()`. -/
def pyStrip (l : List Nat) : List Nat := rstrip (lstrip l)

/-- Python `str.replace('"', '')`: remove every double-quote character. -/
def removeQuotes (l : List Nat) : List Nat := l.filter (fun c => c != 34)

/-- Whether the first list is a prefix of the second. -/
def isPrefOf : List Nat → List Nat → Bool
  | [], _ => true
  | _ :: _, [] => false
  | a :: l1, b :: l2 => a == b && isPrefOf l1 l2

/-- Whether the first list occurs as a contiguous substring of the second,
modelling Python's `in` operator on strings. -/
def isSubOf : List Nat → List Nat → Bool
  | n, [] => isPrefOf n []
  | n, c :: t => isPrefOf n (c :: t) || isSubOf n t

/-- The fixed exclusion denylist `EXCLUDED_NAMES` from src/app.py. -/
def EXCLUDED_NAMES : List (List Nat) :=
  [pyStr "daniel raphael", pyStr "dan raphael", pyStr "draphael"]

/-- `should_exclude_name` from src/app.py: lower-case the name, strip it, and
test each denylist entry for substring containment.  (The `pd.isna` branch
returns `False`; name cells are modelled as strings.) -/
def should_exclude_name (name : List Nat) : Bool :=
  EXCLUDED_NAMES.any (fun e => isSubOf e (pyStrip (pyLower name)))

/-- The raw-name containment test used by the spec's exclusion claims: the
case-folded raw name contains some denylist substring. -/
def rawContainsExcluded (name : List Nat) : Bool :=
  EXCLUDED_NAMES.any (fun e => isSubOf e (pyLower name))

/-! ### Duration parser -/

def isDigitCode (c : Nat) : Bool := decide (48 ≤ c) && decide (c ≤ 57)

/-- Tail of a Python integer literal's digit part, after one digit has been
read: digits, with single underscores allowed between digits. -/
def digitsTail : List Nat → Bool
  | [] => true
  | [c] => isDigitCode c
  | c :: d :: rest =>
    if isDigitCode c then digitsTail (d :: rest)
    else if c == 95 then isDigitCode d && digitsTail rest
    else false

/-- Digit part of a Python `int()` literal: nonempty, starts and ends with a
digit, single underscores allowed between digits. -/
def digitsOk : List Nat → Bool
  | [] => false
  | c :: rest => isDigitCode c && digitsTail rest

/-- Numeric value of a digit string (underscores ignored). -/
def digitsVal (l : List Nat) : Nat :=
  l.foldl (fun acc c => if isDigitCode c then acc * 10 + (c - 48) else acc) 0

/-- Python `int(s)` on ASCII text: surrounding whitespace stripped, one
optional sign, then a digit part; anything else raises (modelled as `none`). -/
def pyInt (l : List Nat) : Option Int :=
  let t := pyStrip l
  match t with
  | 43 :: rest => if digitsOk rest then some ((digitsVal rest : Nat) : Int) else none
  | 45 :: rest => if digitsOk rest then some (-((digitsVal rest : Nat) : Int)) else none
  | _ => if digitsOk t then some ((digitsVal t : Nat) : Int) else none

/-- Python `s.split(":")`. -/
def splitColon : List Nat → List (List Nat)
  | [] => [[]]
  | c :: rest =>
    if c == 58 then [] :: splitColon rest
    else
      match splitColon rest with
      | [] => [[c]]
      | p :: ps => (c :: p) :: ps

/-- The three-field arm of the duration parser: `hours, minutes, seconds = map
int(parts)` with any `ValueError` giving no value, then
`hours*60 + minutes + seconds/60`. -/
def parse3 (a b c : List Nat) : Option ℚ :=
  match pyInt a, pyInt b, pyInt c with
  | some h, some m, some sec => some ((h : ℚ) * 60 + (m : ℚ) + (sec : ℚ) / 60)
  | _, _, _ => none

/-- `parse_duration_to_minutes` from src/app.py lines 81-92: `none` input
(pd.isna), the literal "No data" and the empty string give no value; otherwise
the string must split on ":" into exactly three integer fields, giving
`hours*60 + minutes + seconds/60` minutes; any failure gives no value. -/
def parse_duration_to_minutes (x : Option (List Nat)) : Option ℚ :=
  match x with
  | none => none
  | some s =>
    if s == pyStr "No data" then none
    else if s == ([] : List Nat) then none
    else
      match splitColon s with
      | [a, b, c] => parse3 a b c
      | _ => none

/-! ### Entity normalizer -/

/-- The credential-suffix alternatives of the regex
`\s+(NP|FNP-C|MD|PA|LLC|Inc\.?|INC\.?|PLLC)$` (case-insensitive), stored
lower-cased; `Inc\.?` contributes both `inc` and `inc.`, and `INC\.?` is
redundant under IGNORECASE. -/
def SUFFIX_TOKENS : List (List Nat) :=
  [pyStr "np", pyStr "fnp-c", pyStr "md", pyStr "pa", pyStr "llc",
   pyStr "inc", pyStr "inc.", pyStr "pllc"]

/-- `re.sub(r'\s+(NP|FNP-C|MD|PA|LLC|Inc\.?|INC\.?|PLLC)$', '', s, IGNORECASE)`:
if the string ends (case-insensitively) with one of the tokens immediately
preceded by at least one whitespace character, remove the token together with
the whole contiguous whitespace run before it; otherwise leave the string
unchanged.  (Anchored at the end, the regex matches at most once, and the
leftmost match consumes the maximal whitespace run.) -/
def stripOneSuffix (l : List Nat) : List Nat :=
  let r := l.reverse
  match SUFFIX_TOKENS.find? (fun tok =>
      ((r.take tok.length).map lowerCode == tok.reverse) &&
      (match r.drop tok.length with
       | [] => false
       | c :: _ => isSpaceCode c)) with
  | some tok => ((r.drop tok.length).dropWhile isSpaceCode).reverse
  | none => l

/-- `re.sub(r',\s*NP$', '', s, IGNORECASE)`: if the string ends with "np"
(case-insensitively) preceded by optional whitespace and then a comma, remove
from the comma on; otherwise leave the string unchanged. -/
def stripCommaNP (l : List Nat) : List Nat :=
  let r := l.reverse
  if (r.take 2).map lowerCode == [112, 110] then
    match (r.drop 2).dropWhile isSpaceCode with
    | c :: rest => if c == 44 then rest.reverse else l
    | [] => l
  else l

/-- `normalize_name` as defined inside `get_gusto_hours` (src/app.py lines
221-227): strip, remove one trailing credential suffix, remove a trailing
",NP", then lower-case and strip. -/
def normalize_name_gusto (l : List Nat) : List Nat :=
  pyStrip (pyLower (stripCommaNP (stripOneSuffix (pyStrip l))))

/-- `normalize_name` as defined inside `get_hours_worked` (src/app.py lines
290-296): strip and lower-case first, then remove one trailing credential
suffix and a trailing ",np", then strip. -/
def normalize_name (l : List Nat) : List Nat :=
  pyStrip (stripCommaNP (stripOneSuffix (pyLower (pyStrip l))))

/-! ### Identity matcher -/

/-- Python `s.split()` (no separator): whitespace-delimited tokens, empty
tokens discarded. -/
def splitWsAux : List Nat → List Nat → List (List Nat)
  | [], acc => if acc.isEmpty then [] else [acc.reverse]
  | c :: rest, acc =>
    if isSpaceCode c then
      if acc.isEmpty then splitWsAux rest [] else acc.reverse :: splitWsAux rest []
    else splitWsAux rest (c :: acc)

def splitWs (l : List Nat) : List (List Nat) := splitWsAux l []

/-- `len(set(a.split()).intersection(set(b.split())))` from `is_in_doxy`. -/
def tokenOverlap (a b : List Nat) : Nat :=
  ((splitWs a).toFinset ∩ (splitWs b).toFinset).card

/-- `is_in_doxy` from `get_gusto_hours` (src/app.py lines 232-242): an empty
normalized name never matches; otherwise the name matches the set if some
member shares at least two whitespace tokens with it or is equal to it. -/
def is_in_doxy (a : List Nat) (doxySet : List (List Nat)) : Bool :=
  if a == ([] : List Nat) then false
  else doxySet.any (fun b => decide (2 ≤ tokenOverlap a b) || a == b)

/-! ### Rounding and sorting -/

/-- Round a rational to the nearest integer, ties to even (the rounding used
by numpy/pandas `round`). -/
def roundHalfEven (q : ℚ) : ℤ :=
  let f : ℤ := ⌊q⌋
  let r : ℚ := q - (f : ℚ)
  if r < 1/2 then f
  else if (1 : ℚ)/2 < r then f + 1
  else if f % 2 = 0 then f else f + 1

/-- `x.round(2)`. -/
def round2 (q : ℚ) : ℚ := (roundHalfEven (q * 100) : ℚ) / 100

/-- `x.round(1)`. -/
def round1 (q : ℚ) : ℚ := (roundHalfEven (q * 10) : ℚ) / 10

/-- Insert into a descending-sorted list, keyed by `k`. -/
def insertDescBy {α β : Type} [LinearOrder β] (k : α → β) (a : α) : List α → List α
  | [] => [a]
  | b :: l => if k b < k a then a :: b :: l else b :: insertDescBy k a l

/-- Sort descending by key `k`, modelling `sort_values(..., ascending=False)`
(the claims depend only on the multiset of rows and on descending order). -/
def sortDescBy {α β : Type} [LinearOrder β] (k : α → β) : List α → List α
  | [] => []
  | a :: l => insertDescBy k a (sortDescBy k l)

/-- Deduplicate keeping first occurrences (grouping keys of a table). -/
def dedupFirstAux {α : Type} [DecidableEq α] : List α → List α → List α
  | _, [] => []
  | seen, a :: l =>
    if a ∈ seen then dedupFirstAux seen l else a :: dedupFirstAux (a :: seen) l

def dedupFirst {α : Type} [DecidableEq α] (l : List α) : List α := dedupFirstAux [] l

/-! ### Categorizer -/

inductive Cat where
  | trt
  | hrt
  | other
deriving DecidableEq

/-- `get_category` from `get_visits_by_program`: upper-case the event type and
test substrings "TRT"/"FOUNTAINTRT" then "HRT"; everything else is Other. -/
def categorize (e : List Nat) : Cat :=
  let u := pyUpper e
  if isSubOf (pyStr "TRT") u || isSubOf (pyStr "FOUNTAINTRT") u then Cat.trt
  else if isSubOf (pyStr "HRT") u then Cat.hrt
  else Cat.other

/-! ### Table row types -/

structure DoxyRow where
  provider : List Nat
  duration : Option (List Nat)
deriving DecidableEq

structure VisitRow where
  provider : List Nat
  totalVisits : Nat
deriving DecidableEq

structure BookingRow where
  page : List Nat
  allActivities : ℚ
  scheduled : ℚ
  completed : ℚ
  canceled : ℚ
  noShow : ℚ
deriving DecidableEq

structure OnceHubRow where
  provider : List Nat
  totalActivities : ℚ
  scheduled : ℚ
  completed : ℚ
  canceled : ℚ
  noShow : ℚ
deriving DecidableEq

structure ProgramRow where
  status : List Nat
  provider : List Nat
  eventType : List Nat
deriving DecidableEq

structure ProgramOutRow where
  provider : List Nat
  trt : Nat
  hrt : Nat
  other : Nat
  total : Nat
deriving DecidableEq

structure GustoInRow where
  name : List Nat
  title : List Nat
  manager : List Nat
  totalHours : Option ℚ
deriving DecidableEq

structure GustoOutRow where
  name : List Nat
  totalHours : ℚ
deriving DecidableEq

structure MetricsRow where
  provider : List Nat
  totalVisits : Nat
  over20 : Nat
  pctOver20 : ℚ
  hoursOver20 : ℚ
  avgDuration : ℚ
deriving DecidableEq

structure HoursRow where
  provider : List Nat
  gustoHours : ℚ
  totalVisits : Nat
  hoursWorked : ℚ
deriving DecidableEq

/-! ### Aggregators -/

/-- The Doxy rows surviving the exclusion filter. -/
def doxyKept (d : List DoxyRow) : List DoxyRow :=
  d.filter (fun r => !should_exclude_name r.provider)

/-- `get_doxy_visits` (src/app.py lines 95-101): drop excluded names, group by
the raw provider name, count rows per provider, sort descending by count. -/
def get_doxy_visits (d : List DoxyRow) : List VisitRow :=
  sortDescBy (fun v => v.totalVisits)
    ((dedupFirst ((doxyKept d).map (fun r => r.provider))).map
      (fun p => ⟨p, ((doxyKept d).filter (fun r => r.provider == p)).length⟩))

/-- Helper for `findParenMatch`: length of the contiguous whitespace run
immediately before position `i`. -/
def wsRunBefore (l : List Nat) (i : Nat) : Nat :=
  ((l.take i).reverse.takeWhile isSpaceCode).length

/-- Leftmost match of the regex `\s*\([^)]*\)`: the first '(' that has a ')'
after it, extended left over the contiguous whitespace run; returns the match's
start and length. -/
def findParenMatch (l : List Nat) : Option (Nat × Nat) :=
  match l.findIdx? (fun c => c == 40) with
  | none => none
  | some p =>
    match (l.drop (p + 1)).findIdx? (fun c => c == 41) with
    | none => none
    | some j0 =>
      let s := p - wsRunBefore l p
      some (s, (p + 1 + j0) - s + 1)

/-- `re.sub(r'\s*\([^)]*\)', '', s)`: repeatedly remove the leftmost match,
continuing after it.  Each match removes at least two characters, so fuel equal
to the string length always reaches the fixed point. -/
def subParensFuel : Nat → List Nat → List Nat
  | 0, l => l
  | fuel + 1, l =>
    match findParenMatch l with
    | none => l
    | some (s, len) => l.take s ++ subParensFuel fuel (l.drop (s + len))

def subParens (l : List Nat) : List Nat := subParensFuel l.length l

/-- Provider label derived from a booking-page label in `get_oncehub_visits`:
strip parenthesized segments, then surrounding whitespace. -/
def parenStrip (l : List Nat) : List Nat := pyStrip (subParens l)

/-- The OnceHub rows after label derivation and exclusion filtering. -/
def oncehubRows (b : List BookingRow) : List OnceHubRow :=
  (b.map (fun r =>
    OnceHubRow.mk (parenStrip r.page) r.allActivities r.scheduled r.completed r.canceled
      r.noShow)).filter (fun r => !should_exclude_name r.provider)

/-- `get_oncehub_visits` (src/app.py lines 104-112): derive the provider label
from the booking page, drop excluded providers, pass the five activity columns
through, sort descending by total activities. -/
def get_oncehub_visits (b : List BookingRow) : List OnceHubRow :=
  sortDescBy (fun r => r.totalActivities) (oncehubRows b)

/-- `get_visits_by_program` (src/app.py lines 115-211), modelled from the
extracted Status/Provider/Event-Type records onward (format sniffing is the
readers' concern): keep rows with status exactly "Completed", drop excluded
providers, categorize, pivot to per-provider category counts plus a Total,
sort descending by Total.  (The source omits a category column when that
category never occurs; this embedding carries the count 0 instead, which
affects no claim about row counts or provider names.) -/
def programCat (a : List ProgramRow) : List (List Nat × Cat) :=
  ((a.filter (fun r => r.status == pyStr "Completed")).filter
    (fun r => !should_exclude_name r.provider)).map
    (fun r => (r.provider, categorize r.eventType))

def programPivotRow (wc : List (List Nat × Cat)) (p : List Nat) : ProgramOutRow :=
  let mine := wc.filter (fun x => x.1 == p)
  let t := (mine.filter (fun x => decide (x.2 = Cat.trt))).length
  let h := (mine.filter (fun x => decide (x.2 = Cat.hrt))).length
  let o := (mine.filter (fun x => decide (x.2 = Cat.other))).length
  ⟨p, t, h, o, t + h + o⟩

def get_visits_by_program (a : List ProgramRow) : List ProgramOutRow :=
  sortDescBy (fun r => r.total)
    ((dedupFirst ((programCat a).map (fun x => x.1))).map (programPivotRow (programCat a)))

/-- The Name-column preprocessing of `get_gusto_hours`:
`.astype(str).str.strip().str.replace('"', '')`. -/
def processGustoName (n : List Nat) : List Nat := removeQuotes (pyStrip n)

/-- `get_gusto_hours` (src/app.py lines 214-255): preprocess names, keep rows
whose normalized name matches the normalized visit-provider set, coerce hours
to numeric keeping only positive values, drop excluded names, sort descending
by hours.  A non-numeric hours cell is modelled as `none`. -/
def gustoProcessed (g : List GustoInRow) : List GustoInRow :=
  g.map (fun r => { r with name := processGustoName r.name })

def gustoMatched (g : List GustoInRow) (doxyProviders : List (List Nat)) : List GustoInRow :=
  (gustoProcessed g).filter (fun r =>
    is_in_doxy (normalize_name_gusto r.name) (dedupFirst (doxyProviders.map normalize_name_gusto)))

def gustoPositive (g : List GustoInRow) (doxyProviders : List (List Nat)) : List GustoOutRow :=
  (gustoMatched g doxyProviders).filterMap (fun r =>
    match r.totalHours with
    | some v => if 0 < v then some (GustoOutRow.mk r.name v) else none
    | none => none)

def get_gusto_hours (g : List GustoInRow) (doxyProviders : List (List Nat)) : List GustoOutRow :=
  sortDescBy (fun r => r.totalHours)
    ((gustoPositive g doxyProviders).filter (fun r => !should_exclude_name r.name))

def sumQ (l : List ℚ) : ℚ := l.foldr (fun a b => a + b) 0

/-- The provider/duration pairs that survive exclusion filtering and duration
parsing in `get_doxy_performance_metrics`. -/
def validDurations (d : List DoxyRow) : List (List Nat × ℚ) :=
  (d.filter (fun r => !should_exclude_name r.provider)).filterMap
    (fun r => (parse_duration_to_minutes r.duration).map (fun m => (r.provider, m)))

/-- Per-provider aggregate of `get_doxy_performance_metrics`: visit count,
count/percentage/hours of visits strictly over 20 minutes, mean duration. -/
def statsFor (valid : List (List Nat × ℚ)) (p : List Nat) : MetricsRow :=
  let durs := (valid.filter (fun x => x.1 == p)).map (fun x => x.2)
  let over := durs.filter (fun x => decide (20 < x))
  MetricsRow.mk p durs.length over.length
    (round1 ((over.length : ℚ) / (durs.length : ℚ) * 100))
    (round2 (sumQ over / 60))
    (round2 (sumQ durs / (durs.length : ℚ)))

/-- `get_doxy_performance_metrics` (src/app.py lines 258-285). -/
def get_doxy_performance_metrics (d : List DoxyRow) : List MetricsRow :=
  sortDescBy (fun r => r.totalVisits)
    ((dedupFirst ((validDurations d).map (fun x => x.1))).map (statsFor (validDurations d)))

/-- One joined row of `get_hours_worked`: provider and hours from the payroll
side, visit count from the metrics side, estimated hours `visits * 20 / 60`
rounded to 2 decimals. -/
def mkHoursRow (gr : GustoOutRow) (mr : MetricsRow) : HoursRow :=
  HoursRow.mk gr.name gr.totalHours mr.totalVisits (round2 ((mr.totalVisits : ℚ) * 20 / 60))

/-- `get_hours_worked` (src/app.py lines 288-311): inner-join the filtered
payroll table and the metrics table on equality of `normalize_name`, then sort
descending by payroll hours. -/
def hoursJoined (g : List GustoOutRow) (m : List MetricsRow) : List HoursRow :=
  g.flatMap (fun gr =>
    (m.filter (fun mr => normalize_name mr.provider == normalize_name gr.name)).map (mkHoursRow gr))

def get_hours_worked (g : List GustoOutRow) (m : List MetricsRow) : List HoursRow :=
  sortDescBy (fun r => r.gustoHours) (hoursJoined g m)

/-! ### Report assembly and error handling -/

/-- Outcome of reading the Doxy report: its rows plus whether the two required
columns were found. -/
structure DoxyTable where
  rows : List DoxyRow
  hasProvider : Bool
  hasDuration : Bool

inductive ReportError where
  | doxyReadError
  | doxyMissingProvider
  | doxyMissingDuration
  | accountDecodeError
  | gustoReadError
deriving DecidableEq

structure Report where
  doxyVisits : List VisitRow
  oncehubVisits : Option (List OnceHubRow)
  visitsByProgram : List ProgramOutRow
  gustoHours : List GustoOutRow
  performanceMetrics : List MetricsRow
  hoursWorked : List HoursRow

/-- The error accumulation of `generate_report` (src/app.py lines 355-416):
Doxy read failure or missing columns, account decode failure and Gusto read
failure are collected; a booking-summary failure contributes nothing. -/
def reportErrors (doxy : Option DoxyTable) (account : Option (List ProgramRow))
    (gusto : Option (List GustoInRow)) : List ReportError :=
  (match doxy with
   | none => [ReportError.doxyReadError]
   | some t =>
     (if t.hasProvider then [] else [ReportError.doxyMissingProvider]) ++
     (if t.hasDuration then [] else [ReportError.doxyMissingDuration])) ++
  (match account with
   | none => [ReportError.accountDecodeError]
   | some _ => []) ++
  (match gusto with
   | none => [ReportError.gustoReadError]
   | some _ => [])

/-- The aggregation phase of `generate_report` (src/app.py lines 418-446):
six sections, with OnceHub Visits present only when a booking table exists. -/
def buildReport (dt : DoxyTable) (acct : List ProgramRow) (g : List GustoInRow)
    (booking : Option (List BookingRow)) : Report :=
  let dv := get_doxy_visits dt.rows
  let gh := get_gusto_hours g (dv.map (fun v => v.provider))
  let pm := get_doxy_performance_metrics dt.rows
  { doxyVisits := dv
    oncehubVisits := booking.map get_oncehub_visits
    visitsByProgram := get_visits_by_program acct
    gustoHours := gh
    performanceMetrics := pm
    hoursWorked := get_hours_worked gh pm }

/-- `generate_report` (src/app.py lines 355-449): each source parameter is
`none` when reading it failed; for the booking summary, `none` also covers
"not supplied" (the source treats both identically).  If any error was
collected, the function raises before any aggregation runs. -/
def generate_report (doxy : Option DoxyTable) (account : Option (List ProgramRow))
    (gusto : Option (List GustoInRow)) (booking : Option (List BookingRow)) :
    Except (List ReportError) Report :=
  match doxy, account, gusto with
  | some dt, some acct, some g =>
    if dt.hasProvider && dt.hasDuration then Except.ok (buildReport dt acct g booking)
    else Except.error (reportErrors (some dt) (some acct) (some g))
  | d, a, gu => Except.error (reportErrors d a gu)

/-! ### Encoding fallback -/

/-- The latin-1 text codec: total on byte strings, each byte becoming the code
point of the same value. -/
def decodeLatin1 (bs : List (Fin 256)) : Option (List Nat) := some (bs.map (fun b => b.val))

/-- First decoder in the list that succeeds on the input. -/
def firstSome {α β : Type} : List (α → Option β) → α → Option β
  | [], _ => none
  | d :: ds, x =>
    match d x with
    | some y => some y
    | none => firstSome ds x

/-- The account-report decode loop of `generate_report` (src/app.py lines
374-383): utf-16, utf-8, latin-1, cp1252 tried in order.  The utf-16, utf-8
and cp1252 codecs are arbitrary partial decoders here, so every fact proved
about this definition holds for the real codecs; latin-1 is modelled exactly. -/
def decodeAccountContent (d16 d8 dcp : List (Fin 256) → Option (List Nat))
    (bs : List (Fin 256)) : Option (List Nat) :=
  firstSome [d16, d8, decodeLatin1, dcp] bs

/-! ### Spec-side definitions for refinement comparison -/

/-- Collapse internal whitespace runs to single spaces (on a trimmed string):
join the whitespace-delimited tokens with single spaces. -/
def collapseWs (l : List Nat) : List Nat := List.intercalate [32] (splitWs l)

/-- Modelled from the spec (4.3), for comparison with the code's
`normalize_name`: trim; strip one trailing credential token from the fixed set
(case-insensitive, anchored to the end), optionally preceded by a comma;
case-fold; collapse internal whitespace runs to single spaces. -/
def specNormalizeC4 (l : List Nat) : List Nat :=
  let t := pyStrip l
  let t2 :=
    match SUFFIX_TOKENS.find? (fun tok =>
        ((t.reverse.take tok.length).map lowerCode == tok.reverse)) with
    | some tok =>
      let r1 := rstrip ((t.reverse.drop tok.length).reverse)
      match r1.reverse with
      | 44 :: rest => rest.reverse
      | _ => r1
    | none => t
  collapseWs (pyLower t2)

/-! ### Lemmas: sorting -/

theorem insertDescBy_perm {α β : Type} [LinearOrder β] (k : α → β) (a : α) (l : List α) :
    List.Perm (insertDescBy k a l) (a :: l) := by
  induction l with
  | nil => simp [insertDescBy]
  | cons b t ih =>
    simp only [insertDescBy]
    split
    · exact List.Perm.refl _
    · exact (List.Perm.cons b ih).trans (List.Perm.swap a b t)

theorem sortDescBy_perm {α β : Type} [LinearOrder β] (k : α → β) (l : List α) :
    List.Perm (sortDescBy k l) l := by
  induction l with
  | nil => exact List.Perm.refl _
  | cons a t ih =>
    exact (insertDescBy_perm k a (sortDescBy k t)).trans (List.Perm.cons a ih)

theorem mem_sortDescBy {α β : Type} [LinearOrder β] {k : α → β} {l : List α} {x : α} :
    x ∈ sortDescBy k l ↔ x ∈ l :=
  (sortDescBy_perm k l).mem_iff

theorem length_sortDescBy {α β : Type} [LinearOrder β] (k : α → β) (l : List α) :
    (sortDescBy k l).length = l.length :=
  (sortDescBy_perm k l).length_eq

theorem pairwise_insertDescBy {α β : Type} [LinearOrder β] {k : α → β} {l : List α} (a : α)
    (h : List.Pairwise (fun x y => k y ≤ k x) l) :
    List.Pairwise (fun x y => k y ≤ k x) (insertDescBy k a l) := by
  induction l with
  | nil => simp [insertDescBy]
  | cons b t ih =>
    rw [List.pairwise_cons] at h
    simp only [insertDescBy]
    split
    · rename_i hlt
      rw [List.pairwise_cons]
      constructor
      · intro y hy
        rcases List.mem_cons.mp hy with rfl | hy
        · exact le_of_lt hlt
        · exact le_trans (h.1 y hy) (le_of_lt hlt)
      · exact List.pairwise_cons.mpr h
    · rename_i hge
      rw [List.pairwise_cons]
      constructor
      · intro y hy
        rcases List.mem_cons.mp ((insertDescBy_perm k a t).mem_iff.mp hy) with rfl | hy
        · exact le_of_not_lt hge
        · exact h.1 y hy
      · exact ih h.2

theorem pairwise_sortDescBy {α β : Type} [LinearOrder β] (k : α → β) (l : List α) :
    List.Pairwise (fun x y => k y ≤ k x) (sortDescBy k l) := by
  induction l with
  | nil => simp [sortDescBy]
  | cons a t ih => exact pairwise_insertDescBy a ih

/-! ### Lemmas: first-occurrence deduplication -/

theorem mem_dedupFirstAux {α : Type} [DecidableEq α] {x : α} :
    ∀ (seen l : List α), x ∈ dedupFirstAux seen l ↔ x ∈ l ∧ x ∉ seen := by
  intro seen l
  induction l generalizing seen with
  | nil => simp [dedupFirstAux]
  | cons a t ih =>
    simp only [dedupFirstAux]
    split
    · rename_i ha
      rw [ih]
      constructor
      · rintro ⟨hx, hs⟩
        exact ⟨List.mem_cons_of_mem a hx, hs⟩
      · rintro ⟨hx, hs⟩
        rcases List.mem_cons.mp hx with rfl | hx
        · exact absurd ha hs
        · exact ⟨hx, hs⟩
    · rename_i ha
      constructor
      · intro hx
        rcases List.mem_cons.mp hx with rfl | hx
        · exact ⟨List.mem_cons_self _ _, ha⟩
        · rcases (ih (a :: seen)).mp hx with ⟨hxt, hxs⟩
          exact ⟨List.mem_cons_of_mem a hxt, fun hc => hxs (List.mem_cons_of_mem a hc)⟩
      · rintro ⟨hx, hs⟩
        by_cases hxa : x = a
        · subst hxa
          exact List.mem_cons_self _ _
        · rcases List.mem_cons.mp hx with rfl | hxt
          · exact absurd rfl hxa
          · refine List.mem_cons_of_mem a ((ih (a :: seen)).mpr ⟨hxt, fun hc => ?_⟩)
            rcases List.mem_cons.mp hc with h2 | h2
            · exact hxa h2
            · exact hs h2

theorem mem_dedupFirst {α : Type} [DecidableEq α] {x : α} {l : List α} :
    x ∈ dedupFirst l ↔ x ∈ l := by
  rw [dedupFirst, mem_dedupFirstAux]
  simp

theorem length_dedupFirstAux_le {α : Type} [DecidableEq α] :
    ∀ (seen l : List α), (dedupFirstAux seen l).length ≤ l.length := by
  intro seen l
  induction l generalizing seen with
  | nil => simp [dedupFirstAux]
  | cons a t ih =>
    simp only [dedupFirstAux]
    split
    · exact le_trans (ih seen) (Nat.le_succ _)
    · simpa using ih (a :: seen)

theorem length_dedupFirst_le {α : Type} [DecidableEq α] (l : List α) :
    (dedupFirst l).length ≤ l.length :=
  length_dedupFirstAux_le [] l

/-! ### Lemmas: counting -/

theorem length_filter_filter_le {α : Type} (p q : α → Bool) (l : List α) :
    ((l.filter q).filter p).length ≤ (l.filter p).length := by
  induction l with
  | nil => simp
  | cons a t ih =>
    rw [List.filter_cons]
    by_cases hq : q a = true
    · rw [if_pos hq, List.filter_cons, List.filter_cons]
      by_cases hp : p a = true
      · rw [if_pos hp, if_pos hp, List.length_cons, List.length_cons]
        omega
      · rw [if_neg hp, if_neg hp]
        exact ih
    · rw [if_neg hq, List.filter_cons]
      by_cases hp : p a = true
      · rw [if_pos hp, List.length_cons]
        omega
      · rw [if_neg hp]
        exact ih

theorem length_filter_filterMap_le {α β : Type} (f : α → Option β) (p : β → Bool)
    (p' : α → Bool) (h : ∀ x y, f x = some y → p y = true → p' x = true) (l : List α) :
    ((l.filterMap f).filter p).length ≤ (l.filter p').length := by
  induction l with
  | nil => simp
  | cons a t ih =>
    rw [List.filter_cons]
    cases hf : f a with
    | none =>
      rw [List.filterMap_cons_none hf]
      by_cases hpa : p' a = true
      · rw [if_pos hpa, List.length_cons]
        omega
      · rw [if_neg hpa]
        exact ih
    | some y =>
      rw [List.filterMap_cons_some hf, List.filter_cons]
      by_cases hp : p y = true
      · have hpa := h a y hf hp
        rw [if_pos hp, if_pos hpa, List.length_cons, List.length_cons]
        omega
      · rw [if_neg hp]
        by_cases hpa : p' a = true
        · rw [if_pos hpa, List.length_cons]
          omega
        · rw [if_neg hpa]
          exact ih

theorem length_filter_map_eq {α β : Type} (f : α → β) (p : β → Bool) (l : List α) :
    ((l.map f).filter p).length = (l.filter (fun x => p (f x))).length := by
  induction l with
  | nil => simp
  | cons a t ih =>
    by_cases hp : p (f a) <;> simp [List.filter_cons, hp, ih]

theorem length_flatMap_le {α β : Type} (f : α → List β) (k : Nat)
    (h : ∀ x, (f x).length ≤ k) (l : List α) :
    (l.flatMap f).length ≤ l.length * k := by
  induction l with
  | nil => simp
  | cons a t ih =>
    rw [List.flatMap_cons, List.length_append]
    have := h a
    have := ih
    calc (f a).length + (t.flatMap f).length ≤ k + t.length * k := by omega
    _ = (t.length + 1) * k := by ring
    _ = (a :: t).length * k := by simp

/-! ### Lemmas: characters -/

theorem isSpaceCode_eq_false_of_ge {c : Nat} (h : 33 ≤ c) : isSpaceCode c = false := by
  rw [Bool.eq_false_iff]
  intro hc
  simp only [isSpaceCode, Bool.or_eq_true, beq_iff_eq] at hc
  omega

theorem lowerCode_idem (c : Nat) : lowerCode (lowerCode c) = lowerCode c := by
  simp only [lowerCode]
  by_cases h : 65 ≤ c ∧ c ≤ 90
  · rw [if_pos h, if_neg (by omega)]
  · rw [if_neg h, if_neg h]

theorem isSpaceCode_lowerCode (c : Nat) : isSpaceCode (lowerCode c) = isSpaceCode c := by
  simp only [lowerCode]
  by_cases h : 65 ≤ c ∧ c ≤ 90
  · rw [if_pos h, isSpaceCode_eq_false_of_ge (by omega), isSpaceCode_eq_false_of_ge (by omega)]
  · rw [if_neg h]

theorem bne34_lowerCode (c : Nat) : ((lowerCode c) != 34) = (c != 34) := by
  simp only [lowerCode]
  by_cases h : 65 ≤ c ∧ c ≤ 90
  · rw [if_pos h]
    have h1 : (c + 32 != 34) = true := bne_iff_ne.mpr (by omega)
    have h2 : (c != 34) = true := bne_iff_ne.mpr (by omega)
    rw [h1, h2]
  · rw [if_neg h]

/-! ### Lemmas: lower-casing commutes with the string operations -/

theorem pyLower_idem (l : List Nat) : pyLower (pyLower l) = pyLower l := by
  simp only [pyLower, List.map_map]
  exact List.map_congr_left (fun c _ => lowerCode_idem c)

theorem dropWhile_space_pyLower (l : List Nat) :
    (pyLower l).dropWhile isSpaceCode = pyLower (l.dropWhile isSpaceCode) := by
  induction l with
  | nil => simp [pyLower]
  | cons c t ih =>
    simp only [pyLower, List.map_cons, List.dropWhile_cons, isSpaceCode_lowerCode]
    by_cases h : isSpaceCode c = true
    · rw [if_pos h, if_pos h]
      exact ih
    · rw [if_neg h, if_neg h]
      rfl

theorem takeWhile_space_pyLower (l : List Nat) :
    (pyLower l).takeWhile isSpaceCode = pyLower (l.takeWhile isSpaceCode) := by
  induction l with
  | nil => simp [pyLower]
  | cons c t ih =>
    simp only [pyLower, List.map_cons, List.takeWhile_cons, isSpaceCode_lowerCode]
    by_cases h : isSpaceCode c = true
    · rw [if_pos h, if_pos h]
      exact congrArg (List.cons (lowerCode c)) ih
    · rw [if_neg h, if_neg h]
      rfl

theorem pyLower_reverse (l : List Nat) : pyLower l.reverse = (pyLower l).reverse := by
  simp [pyLower, List.map_reverse]

theorem lstrip_pyLower (l : List Nat) : lstrip (pyLower l) = pyLower (lstrip l) :=
  dropWhile_space_pyLower l

theorem rstrip_pyLower (l : List Nat) : rstrip (pyLower l) = pyLower (rstrip l) := by
  simp only [rstrip, ← pyLower_reverse, dropWhile_space_pyLower]

theorem pyStrip_pyLower (l : List Nat) : pyStrip (pyLower l) = pyLower (pyStrip l) := by
  simp only [pyStrip, lstrip_pyLower, rstrip_pyLower]

theorem removeQuotes_pyLower (l : List Nat) :
    removeQuotes (pyLower l) = pyLower (removeQuotes l) := by
  induction l with
  | nil => simp [removeQuotes, pyLower]
  | cons c t ih =>
    simp only [removeQuotes, pyLower, List.map_cons, List.filter_cons, bne34_lowerCode]
    by_cases h : (c != 34) = true
    · rw [if_pos h, if_pos h, List.map_cons]
      simpa [removeQuotes, pyLower] using congrArg (List.cons (lowerCode c)) ih
    · rw [if_neg h, if_neg h]
      exact ih

/-! ### Lemmas: stripping is idempotent -/

theorem length_dropWhile_le {α : Type} (p : α → Bool) (l : List α) :
    (l.dropWhile p).length ≤ l.length := by
  induction l with
  | nil => simp
  | cons c t ih =>
    rw [List.dropWhile_cons]
    by_cases h : p c = true
    · rw [if_pos h]
      exact le_trans ih (Nat.le_succ _)
    · rw [if_neg h]

theorem lstrip_lstrip (l : List Nat) : lstrip (lstrip l) = lstrip l := by
  induction l with
  | nil => rfl
  | cons c t ih =>
    simp only [lstrip, List.dropWhile_cons]
    by_cases h : isSpaceCode c = true
    · rw [if_pos h]
      exact ih
    · rw [if_neg h, List.dropWhile_cons, if_neg h]

theorem rstrip_rstrip (l : List Nat) : rstrip (rstrip l) = rstrip l := by
  simp only [rstrip, List.reverse_reverse]
  rw [show (l.reverse.dropWhile isSpaceCode).dropWhile isSpaceCode
        = l.reverse.dropWhile isSpaceCode from lstrip_lstrip l.reverse]

theorem rstrip_as_prefix (l : List Nat) : ∃ t, l = rstrip l ++ t := by
  refine ⟨(l.reverse.takeWhile isSpaceCode).reverse, ?_⟩
  rw [rstrip, ← List.reverse_append, List.takeWhile_append_dropWhile, List.reverse_reverse]

theorem lstrip_rstrip_of_lstripped {l : List Nat} (h : lstrip l = l) :
    lstrip (rstrip l) = rstrip l := by
  obtain ⟨t, ht⟩ := rstrip_as_prefix l
  cases hr : rstrip l with
  | nil => rfl
  | cons c m =>
    rw [hr] at ht
    have hc : isSpaceCode c = false := by
      by_contra hcc
      have hctrue : isSpaceCode c = true := by
        cases hx : isSpaceCode c
        · exact absurd hx hcc
        · rfl
      have h2 : lstrip l = List.dropWhile isSpaceCode (m ++ t) := by
        rw [ht]
        show List.dropWhile isSpaceCode (c :: (m ++ t)) = _
        rw [List.dropWhile_cons, if_pos hctrue]
      have hlen : l.length ≤ (m ++ t).length := by
        conv_lhs => rw [← h, h2]
        exact length_dropWhile_le _ _
      rw [ht] at hlen
      simp at hlen
    show lstrip (c :: m) = c :: m
    rw [lstrip, List.dropWhile_cons, if_neg (by simp [hc])]

theorem pyStrip_idem (l : List Nat) : pyStrip (pyStrip l) = pyStrip l := by
  rw [pyStrip, pyStrip, lstrip_rstrip_of_lstripped (lstrip_lstrip l), rstrip_rstrip]

/-! ### Lemmas: substring containment -/

theorem isPrefOf_iff : ∀ (n l : List Nat), isPrefOf n l = true ↔ ∃ t, l = n ++ t := by
  intro n
  induction n with
  | nil =>
    intro l
    simp [isPrefOf]
  | cons a n2 ih =>
    intro l
    cases l with
    | nil =>
      simp [isPrefOf]
    | cons b l2 =>
      simp only [isPrefOf, Bool.and_eq_true, beq_iff_eq, ih, List.cons_append, List.cons.injEq]
      constructor
      · rintro ⟨rfl, t, rfl⟩
        exact ⟨t, rfl, rfl⟩
      · rintro ⟨t, rfl, rfl⟩
        exact ⟨rfl, t, rfl⟩

theorem isSubOf_iff (n : List Nat) : ∀ (l : List Nat),
    isSubOf n l = true ↔ ∃ s t, l = s ++ n ++ t := by
  intro l
  induction l with
  | nil =>
    rw [show isSubOf n [] = isPrefOf n [] from rfl, isPrefOf_iff]
    constructor
    · rintro ⟨t, ht⟩
      exact ⟨[], t, by simpa using ht⟩
    · rintro ⟨s, t, ht⟩
      cases s with
      | nil => exact ⟨t, by simpa using ht⟩
      | cons c s2 => simp at ht
  | cons c t2 ih =>
    rw [show isSubOf n (c :: t2) = (isPrefOf n (c :: t2) || isSubOf n t2) from rfl,
      Bool.or_eq_true, isPrefOf_iff, ih]
    constructor
    · rintro (⟨t, ht⟩ | ⟨s, t, ht⟩)
      · exact ⟨[], t, by simpa using ht⟩
      · exact ⟨c :: s, t, by simp [ht]⟩
    · rintro ⟨s, t, ht⟩
      cases s with
      | nil => exact Or.inl ⟨t, by simpa using ht⟩
      | cons d s2 =>
        right
        have h2 : c = d ∧ t2 = s2 ++ n ++ t := by simpa using ht
        exact ⟨s2, t, h2.2⟩

theorem isSubOf_trans {a b c : List Nat} (h1 : isSubOf a b = true) (h2 : isSubOf b c = true) :
    isSubOf a c = true := by
  rw [isSubOf_iff] at *
  obtain ⟨s1, t1, rfl⟩ := h1
  obtain ⟨s2, t2, rfl⟩ := h2
  exact ⟨s2 ++ s1, t1 ++ t2, by simp⟩

theorem isSubOf_reverse_iff (n l : List Nat) :
    isSubOf n.reverse l.reverse = true ↔ isSubOf n l = true := by
  rw [isSubOf_iff, isSubOf_iff]
  constructor
  · rintro ⟨s, t, ht⟩
    refine ⟨t.reverse, s.reverse, ?_⟩
    have := congrArg List.reverse ht
    simpa [List.reverse_append, List.append_assoc] using this
  · rintro ⟨s, t, rfl⟩
    exact ⟨t.reverse, s.reverse, by simp [List.reverse_append, List.append_assoc]⟩

theorem isSubOf_of_isSubOf_lstrip {n l : List Nat} (h : isSubOf n (lstrip l) = true) :
    isSubOf n l = true := by
  refine isSubOf_trans h ?_
  rw [isSubOf_iff]
  exact ⟨l.takeWhile isSpaceCode, [], by simp [lstrip, List.takeWhile_append_dropWhile]⟩

theorem isSubOf_of_isSubOf_rstrip {n l : List Nat} (h : isSubOf n (rstrip l) = true) :
    isSubOf n l = true := by
  refine isSubOf_trans h ?_
  rw [isSubOf_iff]
  obtain ⟨t, ht⟩ := rstrip_as_prefix l
  exact ⟨[], t, by simpa using ht⟩

theorem isSubOf_of_isSubOf_pyStrip {n l : List Nat} (h : isSubOf n (pyStrip l) = true) :
    isSubOf n l = true :=
  isSubOf_of_isSubOf_lstrip (isSubOf_of_isSubOf_rstrip h)

theorem isSubOf_lstrip_of_head {d : Nat} {n l : List Nat} (hd : isSpaceCode d = false)
    (h : isSubOf (d :: n) l = true) : isSubOf (d :: n) (lstrip l) = true := by
  induction l with
  | nil =>
    simp [isSubOf, isPrefOf] at h
  | cons c t ih =>
    rw [lstrip, List.dropWhile_cons]
    by_cases hc : isSpaceCode c = true
    · rw [if_pos hc]
      have h2 : isSubOf (d :: n) t = true := by
        rw [show isSubOf (d :: n) (c :: t) = (isPrefOf (d :: n) (c :: t) || isSubOf (d :: n) t)
            from rfl, Bool.or_eq_true] at h
        rcases h with hpref | hsub
        · exfalso
          rw [show isPrefOf (d :: n) (c :: t) = (d == c && isPrefOf n t) from rfl,
            Bool.and_eq_true, beq_iff_eq] at hpref
          rw [hpref.1, hc] at hd
          simp at hd
        · exact hsub
      exact ih h2
    · rw [if_neg hc]
      exact h

/-- The first element of a nonempty list is not whitespace. -/
def headNonSpace : List Nat → Bool
  | [] => false
  | c :: _ => !isSpaceCode c

/-- The last element of a nonempty list is not whitespace. -/
def lastNonSpace (l : List Nat) : Bool := headNonSpace l.reverse

theorem isSubOf_lstrip_of_headNonSpace {n l : List Nat} (hn : headNonSpace n = true)
    (h : isSubOf n l = true) : isSubOf n (lstrip l) = true := by
  cases n with
  | nil => simp [headNonSpace] at hn
  | cons d m =>
    have hd : isSpaceCode d = false := by
      cases hx : isSpaceCode d
      · rfl
      · rw [show headNonSpace (d :: m) = !isSpaceCode d from rfl, hx] at hn
        simp at hn
    exact isSubOf_lstrip_of_head hd h

theorem isSubOf_rstrip_of_lastNonSpace {n l : List Nat} (hn : lastNonSpace n = true)
    (h : isSubOf n l = true) : isSubOf n (rstrip l) = true := by
  have h1 : isSubOf n.reverse l.reverse = true := (isSubOf_reverse_iff n l).mpr h
  have h2 : isSubOf n.reverse (lstrip l.reverse) = true :=
    isSubOf_lstrip_of_headNonSpace hn h1
  have h3 : isSubOf n ((lstrip l.reverse).reverse) = true := by
    rw [← isSubOf_reverse_iff, List.reverse_reverse]
    exact h2
  exact h3

theorem isSubOf_pyStrip_of_edges {n l : List Nat} (hh : headNonSpace n = true)
    (hl : lastNonSpace n = true) (h : isSubOf n l = true) :
    isSubOf n (pyStrip l) = true :=
  isSubOf_rstrip_of_lastNonSpace hl (isSubOf_lstrip_of_headNonSpace hh h)

theorem isSubOf_filter {n l : List Nat} (p : Nat → Bool) (hn : n.all p = true)
    (h : isSubOf n l = true) : isSubOf n (l.filter p) = true := by
  rw [isSubOf_iff] at h ⊢
  obtain ⟨s, t, rfl⟩ := h
  have hfn : n.filter p = n := List.filter_eq_self.mpr (fun a ha => (List.all_eq_true.mp hn) a ha)
  refine ⟨s.filter p, t.filter p, ?_⟩
  rw [List.filter_append, List.filter_append, hfn]

/-! ### Lemmas: the exclusion filter -/

theorem isSubOf_pyStrip_iff_of_edges {n : List Nat} (hh : headNonSpace n = true)
    (hl : lastNonSpace n = true) (l : List Nat) :
    isSubOf n (pyStrip l) = isSubOf n l := by
  cases hx : isSubOf n l
  · cases hy : isSubOf n (pyStrip l)
    · rfl
    · have := isSubOf_of_isSubOf_pyStrip hy
      rw [hx] at this
      simp at this
  · exact isSubOf_pyStrip_of_edges hh hl hx

/-- Because every denylist entry begins and ends with a non-whitespace
character, the filter's strip step never changes the outcome: the filter fires
exactly when the case-folded raw name contains a denylist substring. -/
theorem should_exclude_eq_rawContains (n : List Nat) :
    should_exclude_name n = rawContainsExcluded n := by
  simp only [should_exclude_name, rawContainsExcluded, EXCLUDED_NAMES, List.any_cons,
    List.any_nil]
  rw [isSubOf_pyStrip_iff_of_edges (by decide) (by decide),
    isSubOf_pyStrip_iff_of_edges (by decide) (by decide),
    isSubOf_pyStrip_iff_of_edges (by decide) (by decide)]

/-- A payroll name whose case-folded raw form contains a denylist substring
still contains it after the Name-column preprocessing (strip plus quote
removal), so the exclusion filter fires on the processed name as well. -/
theorem should_exclude_processGustoName_of_raw {n : List Nat}
    (h : rawContainsExcluded n = true) :
    should_exclude_name (processGustoName n) = true := by
  rw [should_exclude_eq_rawContains]
  rw [rawContainsExcluded, List.any_eq_true] at h ⊢
  obtain ⟨item, hmem, hsub⟩ := h
  refine ⟨item, hmem, ?_⟩
  have hedges : headNonSpace item = true ∧ lastNonSpace item = true ∧
      item.all (fun c => c != 34) = true := by
    simp only [EXCLUDED_NAMES, List.mem_cons, List.mem_singleton] at hmem
    rcases hmem with rfl | rfl | rfl | h0
    · exact ⟨by decide, by decide, by decide⟩
    · exact ⟨by decide, by decide, by decide⟩
    · exact ⟨by decide, by decide, by decide⟩
    · simp at h0
  have hstep1 : isSubOf item (pyStrip (pyLower n)) = true :=
    isSubOf_pyStrip_of_edges hedges.1 hedges.2.1 hsub
  have hstep2 : isSubOf item (removeQuotes (pyStrip (pyLower n))) = true :=
    isSubOf_filter _ hedges.2.2 hstep1
  have heq : pyLower (processGustoName n) = removeQuotes (pyStrip (pyLower n)) := by
    rw [processGustoName, ← removeQuotes_pyLower, pyStrip_pyLower]
  rw [heq]
  exact hstep2

/-! ### Lemmas: membership in the aggregator outputs -/

theorem not_excluded_of_mem_doxyKept {d : List DoxyRow} {row : DoxyRow}
    (h : row ∈ doxyKept d) : should_exclude_name row.provider = false := by
  have h2 := (List.mem_filter.mp h).2
  cases hx : should_exclude_name row.provider
  · rfl
  · rw [hx] at h2
    simp at h2

theorem mem_doxy_visits_providers {d : List DoxyRow} {n : List Nat} :
    n ∈ (get_doxy_visits d).map (fun v => v.provider) ↔
      ∃ row ∈ doxyKept d, row.provider = n := by
  rw [get_doxy_visits]
  constructor
  · intro h
    obtain ⟨v, hv, hvn⟩ := List.mem_map.mp h
    rw [mem_sortDescBy] at hv
    obtain ⟨p, hp, hpe⟩ := List.mem_map.mp hv
    obtain ⟨row, hrow, hre⟩ := List.mem_map.mp (mem_dedupFirst.mp hp)
    refine ⟨row, hrow, ?_⟩
    rw [hre, ← hvn, ← hpe]
  · rintro ⟨row, hrow, rfl⟩
    refine List.mem_map.mpr
      ⟨⟨row.provider, ((doxyKept d).filter (fun r => r.provider == row.provider)).length⟩,
        ?_, rfl⟩
    rw [mem_sortDescBy]
    exact List.mem_map.mpr ⟨row.provider,
      mem_dedupFirst.mpr (List.mem_map.mpr ⟨row, hrow, rfl⟩), rfl⟩

theorem mem_oncehubRows {b : List BookingRow} {r : OnceHubRow} (h : r ∈ oncehubRows b) :
    should_exclude_name r.provider = false ∧
      ∃ s ∈ b, r.provider = parenStrip s.page := by
  have h2 := List.mem_filter.mp h
  obtain ⟨s, hs, hse⟩ := List.mem_map.mp h2.1
  constructor
  · have hb := h2.2
    cases hx : should_exclude_name r.provider
    · rfl
    · rw [hx] at hb
      simp at hb
  · exact ⟨s, hs, by rw [← hse]⟩

theorem mem_programCat_providers {a : List ProgramRow} {p : List Nat}
    (h : p ∈ (programCat a).map (fun x => x.1)) :
    ∃ row ∈ a, should_exclude_name row.provider = false ∧ row.provider = p := by
  obtain ⟨x, hx, hxe⟩ := List.mem_map.mp h
  obtain ⟨row, hrow, hre⟩ := List.mem_map.mp hx
  have hf := List.mem_filter.mp hrow
  have hf2 := List.mem_filter.mp hf.1
  refine ⟨row, hf2.1, ?_, ?_⟩
  · have hb := hf.2
    cases hy : should_exclude_name row.provider
    · rfl
    · rw [hy] at hb
      simp at hb
  · rw [← hxe, ← hre]

theorem mem_visits_by_program_providers {a : List ProgramRow} {n : List Nat}
    (h : n ∈ (get_visits_by_program a).map (fun v => v.provider)) :
    ∃ row ∈ a, should_exclude_name row.provider = false ∧ row.provider = n := by
  obtain ⟨v, hv, hvn⟩ := List.mem_map.mp h
  rw [get_visits_by_program, mem_sortDescBy] at hv
  obtain ⟨p, hp, hpe⟩ := List.mem_map.mp hv
  have hp2 : p ∈ (programCat a).map (fun x => x.1) := mem_dedupFirst.mp hp
  obtain ⟨row, hrow, hex, hre⟩ := mem_programCat_providers hp2
  refine ⟨row, hrow, hex, ?_⟩
  rw [hre, ← hvn, ← hpe]
  rfl

theorem mem_get_gusto_hours {g : List GustoInRow} {dp : List (List Nat)} {r : GustoOutRow}
    (h : r ∈ get_gusto_hours g dp) :
    should_exclude_name r.name = false ∧ ∃ s ∈ g, r.name = processGustoName s.name := by
  rw [get_gusto_hours, mem_sortDescBy] at h
  have h2 := List.mem_filter.mp h
  constructor
  · have hb := h2.2
    cases hx : should_exclude_name r.name
    · rfl
    · rw [hx] at hb
      simp at hb
  · obtain ⟨r2, hr2, hr2e⟩ := List.mem_filterMap.mp h2.1
    have hr1 := (List.mem_filter.mp hr2).1
    obtain ⟨s, hs, hse⟩ := List.mem_map.mp hr1
    refine ⟨s, hs, ?_⟩
    cases hth : r2.totalHours with
    | none =>
      rw [hth] at hr2e
      have hnone : (none : Option GustoOutRow) = some r := hr2e
      simp at hnone
    | some v =>
      rw [hth] at hr2e
      have hr2e2 : (if 0 < v then some (GustoOutRow.mk r2.name v) else none) = some r := hr2e
      by_cases hv : 0 < v
      · rw [if_pos hv] at hr2e2
        have hmk : GustoOutRow.mk r2.name v = r := Option.some.inj hr2e2
        rw [← hmk]
        show r2.name = processGustoName s.name
        rw [← hse]
      · rw [if_neg hv] at hr2e2
        simp at hr2e2

theorem mem_hoursJoined {g : List GustoOutRow} {m : List MetricsRow} {r : HoursRow} :
    r ∈ hoursJoined g m ↔
      ∃ gr ∈ g, ∃ mr ∈ m,
        normalize_name mr.provider = normalize_name gr.name ∧ r = mkHoursRow gr mr := by
  rw [hoursJoined, List.mem_flatMap]
  constructor
  · rintro ⟨gr, hgr, hr⟩
    obtain ⟨mr, hmr, hmre⟩ := List.mem_map.mp hr
    have hmf := List.mem_filter.mp hmr
    refine ⟨gr, hgr, mr, hmf.1, ?_, hmre.symm⟩
    exact eq_of_beq hmf.2
  · rintro ⟨gr, hgr, mr, hmr, heq, rfl⟩
    refine ⟨gr, hgr, List.mem_map.mpr ⟨mr, List.mem_filter.mpr ⟨hmr, ?_⟩, rfl⟩⟩
    exact beq_iff_eq.mpr heq

theorem mem_get_hours_worked {g : List GustoOutRow} {m : List MetricsRow} {r : HoursRow} :
    r ∈ get_hours_worked g m ↔
      ∃ gr ∈ g, ∃ mr ∈ m,
        normalize_name mr.provider = normalize_name gr.name ∧ r = mkHoursRow gr mr := by
  rw [get_hours_worked, mem_sortDescBy, mem_hoursJoined]

theorem mem_get_doxy_performance_metrics {d : List DoxyRow} {r : MetricsRow} :
    r ∈ get_doxy_performance_metrics d ↔
      ∃ p, p ∈ (validDurations d).map (fun x => x.1) ∧ r = statsFor (validDurations d) p := by
  rw [get_doxy_performance_metrics, mem_sortDescBy]
  constructor
  · intro h
    obtain ⟨p, hp, hpe⟩ := List.mem_map.mp h
    exact ⟨p, mem_dedupFirst.mp hp, hpe.symm⟩
  · rintro ⟨p, hp, rfl⟩
    exact List.mem_map.mpr ⟨p, mem_dedupFirst.mpr hp, rfl⟩

theorem mem_validDurations_not_excluded {d : List DoxyRow} {x : List Nat × ℚ}
    (h : x ∈ validDurations d) : should_exclude_name x.1 = false := by
  rw [validDurations] at h
  obtain ⟨row, hrow, hre⟩ := List.mem_filterMap.mp h
  cases hp : parse_duration_to_minutes row.duration with
  | none =>
    rw [hp] at hre
    simp at hre
  | some v =>
    rw [hp] at hre
    have : (row.provider, v) = x := Option.some.inj hre
    rw [← this]
    exact not_excluded_of_mem_doxyKept hrow

/-! ### Lemmas: identity matcher -/

theorem tokenOverlap_nil_right (a : List Nat) : tokenOverlap a [] = 0 := by
  simp [tokenOverlap, splitWs, splitWsAux]

theorem tokenOverlap_comm (a b : List Nat) : tokenOverlap a b = tokenOverlap b a := by
  rw [tokenOverlap, tokenOverlap, Finset.inter_comm]

theorem is_in_doxy_pair_iff (a b : List Nat) :
    is_in_doxy a [b] = true ↔ a ≠ [] ∧ b ≠ [] ∧ (a = b ∨ 2 ≤ tokenOverlap a b) := by
  rw [is_in_doxy]
  by_cases ha : a = []
  · subst ha
    simp
  · have hcond : (a == ([] : List Nat)) = false := beq_eq_false_iff_ne.mpr ha
    rw [if_neg (by simp [hcond])]
    simp only [List.any_cons, List.any_nil, Bool.or_false, Bool.or_eq_true,
      decide_eq_true_eq, beq_iff_eq]
    constructor
    · rintro (hov | rfl)
      · refine ⟨ha, fun hb => ?_, Or.inr hov⟩
        subst hb
        rw [tokenOverlap_nil_right] at hov
        omega
      · exact ⟨ha, ha, Or.inl rfl⟩
    · rintro ⟨h1, h2, rfl | hov⟩
      · exact Or.inr rfl
      · exact Or.inl hov

/-! ### Lemmas: duration parser -/

theorem parse_duration_some_of_fields {s a b c : List Nat} {H M S : Int}
    (hsplit : splitColon s = [a, b, c]) (hH : pyInt a = some H) (hM : pyInt b = some M)
    (hS : pyInt c = some S) :
    parse_duration_to_minutes (some s) = some ((H : ℚ) * 60 + (M : ℚ) + (S : ℚ) / 60) := by
  have hnd : s ≠ pyStr "No data" := by
    intro h
    subst h
    have hc : (splitColon (pyStr "No data")).length = 1 := by decide
    rw [hsplit] at hc
    simp at hc
  have hne : s ≠ [] := by
    intro h
    subst h
    have hc : (splitColon ([] : List Nat)).length = 1 := by decide
    rw [hsplit] at hc
    simp at hc
  rw [parse_duration_to_minutes]
  rw [if_neg (by simp [beq_iff_eq, hnd]), if_neg (by simp [beq_iff_eq, hne]), hsplit]
  show parse3 a b c = _
  rw [parse3, hH, hM, hS]

theorem parse_duration_none_of_malformed {s : List Nat}
    (h : ¬ ∃ a b c H M S, splitColon s = [a, b, c] ∧ pyInt a = some H ∧ pyInt b = some M ∧
      pyInt c = some S) :
    parse_duration_to_minutes (some s) = none := by
  rw [parse_duration_to_minutes]
  by_cases h1 : (s == pyStr "No data") = true
  · rw [if_pos h1]
  · rw [if_neg h1]
    by_cases h2 : (s == ([] : List Nat)) = true
    · rw [if_pos h2]
    · rw [if_neg h2]
      rcases hsp : splitColon s with _ | ⟨a, _ | ⟨b, _ | ⟨c, _ | ⟨d, t⟩⟩⟩⟩
      · rfl
      · rfl
      · rfl
      · show parse3 a b c = none
        rw [parse3]
        cases hA : pyInt a with
        | none => rfl
        | some H =>
          cases hB : pyInt b with
          | none => rfl
          | some M =>
            cases hC : pyInt c with
            | none => rfl
            | some S => exact absurd ⟨a, b, c, H, M, S, hsp, hA, hB, hC⟩ h
      · rfl

/-! ### Claim C5 -/

/-- C5: For every pair of normalized identities a and b, the identity matcher
(`is_in_doxy` against the singleton set) returns true iff a and b are exactly
equal strings or their whitespace-delimited token sets share at least two
tokens, an empty identity on either side never matching; moreover the matcher
is symmetric in the pair. -/
theorem C5_identity_matcher_pair (a b : List Nat) :
    (is_in_doxy a [b] = true ↔ a ≠ [] ∧ b ≠ [] ∧ (a = b ∨ 2 ≤ tokenOverlap a b)) ∧
    is_in_doxy a [b] = is_in_doxy b [a] := by
  refine ⟨is_in_doxy_pair_iff a b, ?_⟩
  cases hx : is_in_doxy a [b] <;> cases hy : is_in_doxy b [a]
  · rfl
  · exfalso
    have h2 := (is_in_doxy_pair_iff b a).mp hy
    have h3 : is_in_doxy a [b] = true := (is_in_doxy_pair_iff a b).mpr
      ⟨h2.2.1, h2.1, by
        rcases h2.2.2 with heq | hov
        · exact Or.inl heq.symm
        · exact Or.inr (by rw [tokenOverlap_comm]; exact hov)⟩
    rw [hx] at h3
    simp at h3
  · exfalso
    have h2 := (is_in_doxy_pair_iff a b).mp hx
    have h3 : is_in_doxy b [a] = true := (is_in_doxy_pair_iff b a).mpr
      ⟨h2.2.1, h2.1, by
        rcases h2.2.2 with heq | hov
        · exact Or.inl heq.symm
        · exact Or.inr (by rw [tokenOverlap_comm]; exact hov)⟩
    rw [hy] at h3
    simp at h3
  · rfl

/-! ### Claim C6 -/

/-- C6: The duration parser returns `hours*60 + minutes + seconds/60` minutes
exactly when the token splits on ":" into three integer fields, and the
no-value marker (never raising) on null, empty, the literal "No data", or any
malformed input; in particular "01:02:03" gives 62.05, "00:00:00" gives 0 and
"1:2" gives no value. -/
theorem C6_duration_parse_behavior :
    parse_duration_to_minutes none = none ∧
    (∀ s a b c H M S, splitColon s = [a, b, c] → pyInt a = some H → pyInt b = some M →
      pyInt c = some S →
      parse_duration_to_minutes (some s) = some ((H : ℚ) * 60 + (M : ℚ) + (S : ℚ) / 60)) ∧
    (∀ s, (¬ ∃ a b c H M S, splitColon s = [a, b, c] ∧ pyInt a = some H ∧ pyInt b = some M ∧
      pyInt c = some S) → parse_duration_to_minutes (some s) = none) ∧
    parse_duration_to_minutes (some (pyStr "01:02:03")) = some (62.05 : ℚ) ∧
    parse_duration_to_minutes (some (pyStr "00:00:00")) = some 0 ∧
    parse_duration_to_minutes (some (pyStr "1:2")) = none ∧
    parse_duration_to_minutes (some (pyStr "No data")) = none ∧
    parse_duration_to_minutes (some []) = none := by
  refine ⟨rfl, ?_, ?_, by with_unfolding_all decide, by with_unfolding_all decide,
    by decide, by decide, by decide⟩
  · intro s a b c H M S h1 h2 h3 h4
    exact parse_duration_some_of_fields h1 h2 h3 h4
  · intro s h
    exact parse_duration_none_of_malformed h

/-- Witness for C6: the three-integer-field conclusion applied to the concrete
token "01:02:03", with every hypothesis discharged by evaluation. -/
theorem C6_duration_parse_behavior_witness :
    parse_duration_to_minutes (some (pyStr "01:02:03")) =
      some ((1 : ℚ) * 60 + (2 : ℚ) + (3 : ℚ) / 60) :=
  C6_duration_parse_behavior.2.1 (pyStr "01:02:03") (pyStr "01") (pyStr "02") (pyStr "03") 1 2 3
    (by decide) (by decide) (by decide) (by decide)

/-! ### Lemmas: lower-casing commutes with suffix stripping -/

theorem lowerCode_beq44 (c : Nat) : ((lowerCode c) == 44) = (c == 44) := by
  simp only [lowerCode]
  by_cases h : 65 ≤ c ∧ c ≤ 90
  · rw [if_pos h]
    have h1 : ((c + 32 == 44) = false) := by
      rw [beq_eq_false_iff_ne]
      omega
    have h2 : ((c == 44) = false) := by
      rw [beq_eq_false_iff_ne]
      omega
    rw [h1, h2]
  · rw [if_neg h]

theorem map_lowerCode_map_lowerCode (l : List Nat) :
    (l.map lowerCode).map lowerCode = l.map lowerCode := by
  rw [List.map_map]
  exact List.map_congr_left (fun c _ => lowerCode_idem c)

theorem pyLower_take (l : List Nat) (n : Nat) : (pyLower l).take n = pyLower (l.take n) :=
  (List.map_take lowerCode l n).symm

theorem pyLower_drop (l : List Nat) (n : Nat) : (pyLower l).drop n = pyLower (l.drop n) :=
  (List.map_drop lowerCode l n).symm

theorem pyLower_pyLower_take (l : List Nat) (n : Nat) :
    ((pyLower l).take n).map lowerCode = (l.take n).map lowerCode := by
  rw [pyLower_take]
  exact map_lowerCode_map_lowerCode (l.take n)

theorem stripOneSuffix_pyLower (s : List Nat) :
    stripOneSuffix (pyLower s) = pyLower (stripOneSuffix s) := by
  simp only [stripOneSuffix]
  have hrev : (pyLower s).reverse = pyLower s.reverse := (pyLower_reverse s).symm
  rw [hrev]
  have hpred : (fun (tok : List Nat) =>
      ((((pyLower s.reverse).take tok.length).map lowerCode == tok.reverse) &&
      (match (pyLower s.reverse).drop tok.length with
       | [] => false
       | c :: _ => isSpaceCode c))) =
      (fun (tok : List Nat) =>
      (((s.reverse.take tok.length).map lowerCode == tok.reverse) &&
      (match s.reverse.drop tok.length with
       | [] => false
       | c :: _ => isSpaceCode c))) := by
    funext tok
    have h1 : ((pyLower s.reverse).take tok.length).map lowerCode
        = (s.reverse.take tok.length).map lowerCode := pyLower_pyLower_take s.reverse tok.length
    have h2 : (match (pyLower s.reverse).drop tok.length with
       | [] => false
       | c :: _ => isSpaceCode c) =
        (match s.reverse.drop tok.length with
       | [] => false
       | c :: _ => isSpaceCode c) := by
      rw [pyLower_drop]
      cases s.reverse.drop tok.length with
      | nil => rfl
      | cons c t => exact isSpaceCode_lowerCode c
    rw [h1, h2]
  rw [hpred]
  cases hfind : SUFFIX_TOKENS.find? (fun (tok : List Nat) =>
      (((s.reverse.take tok.length).map lowerCode == tok.reverse) &&
      (match s.reverse.drop tok.length with
       | [] => false
       | c :: _ => isSpaceCode c))) with
  | none => rfl
  | some tok =>
    show (((pyLower s.reverse).drop tok.length).dropWhile isSpaceCode).reverse
        = pyLower ((s.reverse.drop tok.length).dropWhile isSpaceCode).reverse
    rw [pyLower_drop, dropWhile_space_pyLower, pyLower_reverse]

theorem stripCommaNP_pyLower (s : List Nat) :
    stripCommaNP (pyLower s) = pyLower (stripCommaNP s) := by
  simp only [stripCommaNP]
  have hrev : (pyLower s).reverse = pyLower s.reverse := (pyLower_reverse s).symm
  rw [hrev]
  have hcond : ((pyLower s.reverse).take 2).map lowerCode
      = (s.reverse.take 2).map lowerCode := pyLower_pyLower_take s.reverse 2
  rw [hcond]
  by_cases hc : (((s.reverse.take 2).map lowerCode) == [112, 110]) = true
  · rw [if_pos hc, if_pos hc, pyLower_drop, dropWhile_space_pyLower]
    cases hd : (s.reverse.drop 2).dropWhile isSpaceCode with
    | nil => rfl
    | cons c t =>
      show (if (lowerCode c == 44) = true then ((t.map lowerCode).reverse) else pyLower s)
          = pyLower (if (c == 44) = true then t.reverse else s)
      rw [lowerCode_beq44]
      by_cases h44 : (c == 44) = true
      · rw [if_pos h44, if_pos h44, pyLower_reverse]
        rfl
      · rw [if_neg h44, if_neg h44]
  · rw [if_neg hc, if_neg hc]

theorem normalize_name_eq_gusto (x : List Nat) :
    normalize_name x = normalize_name_gusto x := by
  rw [normalize_name, normalize_name_gusto, stripOneSuffix_pyLower, stripCommaNP_pyLower]

/-! ### Claim C3 -/

/-- C3 counterexample: normalization is not idempotent.  On "John NP NP" the
anchored suffix regex removes only the last " NP", leaving "john np", and a
second application strips the now-trailing " np", giving "john". -/
theorem C3_normalize_not_idempotent_counterexample :
    normalize_name_gusto (normalize_name_gusto (pyStr "John NP NP")) ≠
      normalize_name_gusto (pyStr "John NP NP") := by
  decide

/-- C3 amended: normalization is idempotent exactly on the inputs whose
normalized form is a fixed point of the suffix-stripping step, i.e. whenever
stripping a credential suffix or a ",np" tail from `normalize(x)` changes
nothing, then `normalize(normalize(x)) = normalize(x)`. -/
theorem C3_normalize_idempotent_on_suffix_fixed_points (x : List Nat)
    (h : stripCommaNP (stripOneSuffix (normalize_name_gusto x)) = normalize_name_gusto x) :
    normalize_name_gusto (normalize_name_gusto x) = normalize_name_gusto x := by
  have hstrip : pyStrip (normalize_name_gusto x) = normalize_name_gusto x := by
    rw [normalize_name_gusto, pyStrip_idem]
  have hlower : pyLower (normalize_name_gusto x) = normalize_name_gusto x := by
    rw [normalize_name_gusto, pyStrip_pyLower, pyLower_idem, ← pyStrip_pyLower]
  conv_lhs => rw [normalize_name_gusto]
  rw [hstrip, h, hlower, hstrip]

/-- Witness for C3's amended statement at "John Smith NP", whose normalized
form "john smith" is not further changed by the suffix-stripping step. -/
theorem C3_normalize_idempotent_witness :
    normalize_name_gusto (normalize_name_gusto (pyStr "John Smith NP")) =
      normalize_name_gusto (pyStr "John Smith NP") :=
  C3_normalize_idempotent_on_suffix_fixed_points (pyStr "John Smith NP") (by decide)

/-! ### Claim C4 -/

/-- C4 counterexample: the normalizer does not compute the steps the spec
lists.  On "John  Smith, MD" the code leaves the comma (the regex consumes
only whitespace before the token) and does not collapse the double space,
producing "john  smith," while the spec's steps produce "john smith". -/
theorem C4_normalizer_steps_counterexample :
    normalize_name_gusto (pyStr "John  Smith, MD") ≠
      specNormalizeC4 (pyStr "John  Smith, MD") := by
  decide

/-- C4 amended: both normalizer variants compute, in order: trim; remove one
trailing credential token from the fixed set, case-insensitively, together
with the whitespace run before it (a preceding comma is kept); then remove a
trailing comma + optional whitespace + "NP"; case-fold (equivalently before
the stripping steps, as the `get_hours_worked` variant does); trim.  Internal
whitespace is never collapsed, as "John  Smith, MD" shows. -/
theorem C4_normalizer_steps_amended (x : List Nat) :
    normalize_name x = normalize_name_gusto x ∧
    normalize_name_gusto x = pyStrip (pyLower (stripCommaNP (stripOneSuffix (pyStrip x)))) ∧
    normalize_name_gusto (pyStr "John  Smith, MD") = pyStr "john  smith," := by
  exact ⟨normalize_name_eq_gusto x, rfl, by decide⟩

/-! ### Claim C1 -/

/-- C1: A row is in the Hours Worked output exactly when it arises from a
payroll row and a metrics row whose `normalize_name` keys are string-equal
(the fuzzy matcher is not involved); unmatched rows on either side produce
nothing (and no error, the function being total); and each emitted row carries
the payroll name and hours, the metrics visit count, and estimated hours
`visit_count * 20 / 60` rounded to 2 decimals. -/
theorem C1_hours_worked_join (g : List GustoOutRow) (m : List MetricsRow) (r : HoursRow) :
    r ∈ get_hours_worked g m ↔
      ∃ gr ∈ g, ∃ mr ∈ m,
        normalize_name mr.provider = normalize_name gr.name ∧
        r.provider = gr.name ∧ r.gustoHours = gr.totalHours ∧
        r.totalVisits = mr.totalVisits ∧
        r.hoursWorked = round2 ((mr.totalVisits : ℚ) * 20 / 60) := by
  rw [mem_get_hours_worked]
  constructor
  · rintro ⟨gr, hgr, mr, hmr, heq, rfl⟩
    exact ⟨gr, hgr, mr, hmr, heq, rfl, rfl, rfl, rfl⟩
  · rintro ⟨gr, hgr, mr, hmr, heq, h1, h2, h3, h4⟩
    refine ⟨gr, hgr, mr, hmr, heq, ?_⟩
    rcases r with ⟨p, gh, tv, hw⟩
    dsimp only at h1 h2 h3 h4
    subst h1
    subst h2
    subst h3
    subst h4
    rfl

/-- Witness for C1: a concrete joined row obtained through the
characterization. -/
theorem C1_hours_worked_join_witness :
    (⟨pyStr "Jane Doe, NP", 10, 3, 1⟩ : HoursRow) ∈
      get_hours_worked [⟨pyStr "Jane Doe, NP", 10⟩]
        [⟨pyStr "Jane Doe, NP", 3, 3, 100, 1.25, 25⟩] :=
  (C1_hours_worked_join _ _ _).mpr
    ⟨⟨pyStr "Jane Doe, NP", 10⟩, List.mem_cons_self _ _,
     ⟨pyStr "Jane Doe, NP", 3, 3, 100, 1.25, 25⟩, List.mem_cons_self _ _,
     rfl, rfl, rfl, rfl, by with_unfolding_all decide⟩

/-- Witness for C5: two identities sharing two tokens match. -/
theorem C5_identity_matcher_pair_witness :
    is_in_doxy (pyStr "john q smith") [pyStr "john smith"] = true :=
  ((C5_identity_matcher_pair (pyStr "john q smith") (pyStr "john smith")).1).mpr
    ⟨by decide, by decide, Or.inr (by decide)⟩

/-! ### Claim C7 -/

/-- C7: The duration-performance aggregator drops visits with unparseable
durations (and excluded providers), groups the survivors by raw provider name,
and reports per provider: the visit count (positive), the count and total
hours (sum/60, rounded to 2 decimals) of visits strictly over 20 minutes, the
percentage of such visits rounded to 1 decimal, and the mean duration rounded
to 2 decimals; providers appear in the output exactly when they have a parsed
visit; rows are sorted descending by visit count; and on three 00:25:00 visits
for one provider it reports Total Visits 3, Visits Over 20 Min 3, % Over 20
Min 100.0, Avg Duration 25.0 (and 1.25 hours over 20 minutes). -/
theorem C7_performance_metrics :
    (∀ d r, r ∈ get_doxy_performance_metrics d →
      0 < r.totalVisits ∧
      r.totalVisits = (((validDurations d).filter (fun x => x.1 == r.provider)).map
        (fun x => x.2)).length ∧
      r.over20 = ((((validDurations d).filter (fun x => x.1 == r.provider)).map
        (fun x => x.2)).filter (fun x => decide (20 < x))).length ∧
      r.pctOver20 = round1 ((r.over20 : ℚ) / (r.totalVisits : ℚ) * 100) ∧
      r.hoursOver20 = round2 (sumQ ((((validDurations d).filter
        (fun x => x.1 == r.provider)).map (fun x => x.2)).filter
        (fun x => decide (20 < x))) / 60) ∧
      r.avgDuration = round2 (sumQ (((validDurations d).filter
        (fun x => x.1 == r.provider)).map (fun x => x.2)) / (r.totalVisits : ℚ))) ∧
    (∀ d p, (∃ x ∈ validDurations d, x.1 = p) ↔
      ∃ r ∈ get_doxy_performance_metrics d, r.provider = p) ∧
    (∀ d, List.Pairwise (fun x y => y.totalVisits ≤ x.totalVisits)
      (get_doxy_performance_metrics d)) ∧
    get_doxy_performance_metrics
      [⟨pyStr "Jane Doe, NP", some (pyStr "00:25:00")⟩,
       ⟨pyStr "Jane Doe, NP", some (pyStr "00:25:00")⟩,
       ⟨pyStr "Jane Doe, NP", some (pyStr "00:25:00")⟩] =
      [⟨pyStr "Jane Doe, NP", 3, 3, 100, 1.25, 25⟩] := by
  refine ⟨?_, ?_, ?_, by with_unfolding_all decide⟩
  · intro d r hr
    obtain ⟨p, hp, rfl⟩ := mem_get_doxy_performance_metrics.mp hr
    refine ⟨?_, rfl, rfl, rfl, rfl, rfl⟩
    obtain ⟨x, hx, hxe⟩ := List.mem_map.mp hp
    have hmem : x ∈ (validDurations d).filter (fun y => y.1 == p) :=
      List.mem_filter.mpr ⟨hx, beq_iff_eq.mpr hxe⟩
    have hlen : (statsFor (validDurations d) p).totalVisits
        = ((validDurations d).filter (fun y => y.1 == p)).length := by
      simp [statsFor]
    rw [hlen]
    exact List.length_pos.mpr (List.ne_nil_of_mem hmem)
  · intro d p
    constructor
    · rintro ⟨x, hx, hxe⟩
      refine ⟨statsFor (validDurations d) p,
        mem_get_doxy_performance_metrics.mpr
          ⟨p, List.mem_map.mpr ⟨x, hx, hxe⟩, rfl⟩, rfl⟩
    · rintro ⟨r, hr, hrp⟩
      obtain ⟨q, hq, rfl⟩ := mem_get_doxy_performance_metrics.mp hr
      obtain ⟨x, hx, hxe⟩ := List.mem_map.mp hq
      exact ⟨x, hx, by rw [hxe]; exact hrp⟩
  · intro d
    rw [get_doxy_performance_metrics]
    exact pairwise_sortDescBy _ _

/-- Witness for C7's per-row conclusions at the three-visit example table. -/
theorem C7_performance_metrics_witness :
    0 < (⟨pyStr "Jane Doe, NP", 3, 3, 100, 1.25, 25⟩ : MetricsRow).totalVisits :=
  (C7_performance_metrics.1
    [⟨pyStr "Jane Doe, NP", some (pyStr "00:25:00")⟩,
     ⟨pyStr "Jane Doe, NP", some (pyStr "00:25:00")⟩,
     ⟨pyStr "Jane Doe, NP", some (pyStr "00:25:00")⟩]
    ⟨pyStr "Jane Doe, NP", 3, 3, 100, 1.25, 25⟩
    (by with_unfolding_all decide)).1

/-! ### Claim C2 -/

/-- Concrete tables for the C2 counterexample: two visit rows and two payroll
rows whose four distinct raw names all normalize to "john smith". -/
def c2DoxyTable : List DoxyRow :=
  [⟨pyStr "John Smith NP", some (pyStr "00:25:00")⟩,
   ⟨pyStr "John Smith MD", some (pyStr "00:25:00")⟩]

def c2GustoTable : List GustoInRow :=
  [⟨pyStr "John Smith NP", [], [], some 10⟩,
   ⟨pyStr "John Smith MD", [], [], some 5⟩]

/-- C2 counterexample: the Hours Worked inner join can exceed both of its
input tables.  With duplicate normalized keys on both sides (two payroll rows
and two metrics rows all keyed "john smith"), the join has 4 rows from two
2-row inputs. -/
theorem C2_join_rowcount_counterexample :
    (get_hours_worked
        (get_gusto_hours c2GustoTable ((get_doxy_visits c2DoxyTable).map (fun v => v.provider)))
        (get_doxy_performance_metrics c2DoxyTable)).length = 4 ∧
    (get_gusto_hours c2GustoTable
        ((get_doxy_visits c2DoxyTable).map (fun v => v.provider))).length = 2 ∧
    (get_doxy_performance_metrics c2DoxyTable).length = 2 := by
  with_unfolding_all decide

/-- C2 amended: each of the five directly-derived tables has row count at most
that of its source after exclusion filtering; the Hours Worked join is only
bounded by the product of its two input tables' row counts (duplicate
normalized keys on both sides multiply, as the counterexample shows). -/
theorem C2_rowcounts_amended (d : List DoxyRow) (b : List BookingRow) (a : List ProgramRow)
    (g : List GustoInRow) (dp : List (List Nat)) (g2 : List GustoOutRow)
    (m2 : List MetricsRow) :
    (get_doxy_visits d).length ≤ (doxyKept d).length ∧
    (get_oncehub_visits b).length ≤
      (b.filter (fun r => !should_exclude_name (parenStrip r.page))).length ∧
    (get_visits_by_program a).length ≤
      (a.filter (fun r => !should_exclude_name r.provider)).length ∧
    (get_gusto_hours g dp).length ≤
      (g.filter (fun r => !should_exclude_name (processGustoName r.name))).length ∧
    (get_doxy_performance_metrics d).length ≤ (doxyKept d).length ∧
    (get_hours_worked g2 m2).length ≤ g2.length * m2.length := by
  refine ⟨?_, ?_, ?_, ?_, ?_, ?_⟩
  · rw [get_doxy_visits, length_sortDescBy, List.length_map]
    calc (dedupFirst ((doxyKept d).map (fun r => r.provider))).length
        ≤ ((doxyKept d).map (fun r => r.provider)).length := length_dedupFirst_le _
    _ = (doxyKept d).length := List.length_map _ _
  · rw [get_oncehub_visits, length_sortDescBy, oncehubRows]
    exact le_of_eq (length_filter_map_eq _ _ _)
  · rw [get_visits_by_program, length_sortDescBy, List.length_map]
    calc (dedupFirst ((programCat a).map (fun x => x.1))).length
        ≤ ((programCat a).map (fun x => x.1)).length := length_dedupFirst_le _
    _ = (programCat a).length := List.length_map _ _
    _ = ((a.filter (fun r => r.status == pyStr "Completed")).filter
          (fun r => !should_exclude_name r.provider)).length := by
        rw [programCat, List.length_map]
    _ ≤ (a.filter (fun r => !should_exclude_name r.provider)).length :=
        length_filter_filter_le _ _ _
  · rw [get_gusto_hours, length_sortDescBy]
    calc ((gustoPositive g dp).filter (fun r => !should_exclude_name r.name)).length
        ≤ ((gustoMatched g dp).filter (fun r => !should_exclude_name r.name)).length := by
          rw [gustoPositive]
          refine length_filter_filterMap_le _ _ _ ?_ _
          intro x y hf hp
          cases hth : x.totalHours with
          | none =>
            rw [hth] at hf
            have hnone : (none : Option GustoOutRow) = some y := hf
            simp at hnone
          | some v =>
            rw [hth] at hf
            have hf2 : (if 0 < v then some (GustoOutRow.mk x.name v) else none) = some y := hf
            by_cases hv : 0 < v
            · rw [if_pos hv] at hf2
              have : GustoOutRow.mk x.name v = y := Option.some.inj hf2
              rw [← this] at hp
              exact hp
            · rw [if_neg hv] at hf2
              simp at hf2
    _ ≤ ((gustoProcessed g).filter (fun r => !should_exclude_name r.name)).length := by
          rw [gustoMatched]
          exact length_filter_filter_le _ _ _
    _ = (g.filter (fun r => !should_exclude_name (processGustoName r.name))).length := by
          rw [gustoProcessed]
          exact length_filter_map_eq _ _ _
  · rw [get_doxy_performance_metrics, length_sortDescBy, List.length_map]
    calc (dedupFirst ((validDurations d).map (fun x => x.1))).length
        ≤ ((validDurations d).map (fun x => x.1)).length := length_dedupFirst_le _
    _ = (validDurations d).length := List.length_map _ _
    _ ≤ (doxyKept d).length := by
        rw [validDurations]
        exact List.length_filterMap_le _ _
  · rw [get_hours_worked, length_sortDescBy, hoursJoined]
    refine length_flatMap_le _ m2.length ?_ g2
    intro gr
    calc ((m2.filter (fun mr => normalize_name mr.provider == normalize_name gr.name)).map
          (mkHoursRow gr)).length
        = (m2.filter (fun mr => normalize_name mr.provider == normalize_name gr.name)).length :=
          List.length_map _ _
    _ ≤ m2.length := List.length_filter_le _ _

/-! ### Claim C8 -/

/-- Booking table for the C8 counterexample: the denylist hit lies entirely
inside the parenthesized segment of the booking-page label. -/
def c8BookingTable : List BookingRow :=
  [⟨pyStr "danielraphael(daniel raphael)", 1, 1, 1, 1, 0⟩]

/-- C8 counterexample: a booking record whose raw name's case-folded form
contains the denylist substring "daniel raphael" still appears in OnceHub
Visits, because the exclusion test runs on the paren-stripped provider label
"danielraphael", which contains no denylist substring. -/
theorem C8_exclusion_counterexample :
    rawContainsExcluded (pyStr "danielraphael(daniel raphael)") = true ∧
    (get_oncehub_visits c8BookingTable).map (fun r => r.provider) =
      [pyStr "danielraphael"] ∧
    (get_oncehub_visits c8BookingTable).length = 1 := by
  with_unfolding_all decide

/-- C8 amended: a record whose raw name's case-folded form contains a denylist
substring is absent from Doxy Visits, Visits by Program, Doxy Performance
Metrics (raw names are the carried names there) and from Gusto Hours (the
preprocessing of the payroll name preserves the containment); every OnceHub
Visits row and every Hours Worked row carries a name that passes the exclusion
filter — but for OnceHub the filter tests the paren-stripped label, so a
denylist occurrence confined to a parenthesized segment of the raw
booking-page name does not exclude the record. -/
theorem C8_exclusion_amended :
    (∀ (d : List DoxyRow) (n : List Nat), rawContainsExcluded n = true →
      n ∉ (get_doxy_visits d).map (fun v => v.provider)) ∧
    (∀ (b : List BookingRow) (r : OnceHubRow), r ∈ get_oncehub_visits b →
      should_exclude_name r.provider = false) ∧
    (∀ (a : List ProgramRow) (n : List Nat), rawContainsExcluded n = true →
      n ∉ (get_visits_by_program a).map (fun v => v.provider)) ∧
    (∀ (g : List GustoInRow) (dp : List (List Nat)) (r : GustoOutRow),
      r ∈ get_gusto_hours g dp → should_exclude_name r.name = false) ∧
    (∀ (g : List GustoInRow) (dp : List (List Nat)) (row : GustoInRow), row ∈ g →
      rawContainsExcluded row.name = true →
      processGustoName row.name ∉ (get_gusto_hours g dp).map (fun r => r.name)) ∧
    (∀ (d : List DoxyRow) (n : List Nat), rawContainsExcluded n = true →
      n ∉ (get_doxy_performance_metrics d).map (fun r => r.provider)) ∧
    (∀ (g : List GustoInRow) (dp : List (List Nat)) (d : List DoxyRow) (r : HoursRow),
      r ∈ get_hours_worked (get_gusto_hours g dp) (get_doxy_performance_metrics d) →
      should_exclude_name r.provider = false) := by
  refine ⟨?_, ?_, ?_, ?_, ?_, ?_, ?_⟩
  · intro d n hraw hmem
    obtain ⟨row, hrow, rfl⟩ := mem_doxy_visits_providers.mp hmem
    have hex := not_excluded_of_mem_doxyKept hrow
    rw [should_exclude_eq_rawContains, hraw] at hex
    simp at hex
  · intro b r hr
    rw [get_oncehub_visits, mem_sortDescBy] at hr
    exact (mem_oncehubRows hr).1
  · intro a n hraw hmem
    obtain ⟨row, _, hex, rfl⟩ := mem_visits_by_program_providers hmem
    rw [should_exclude_eq_rawContains, hraw] at hex
    simp at hex
  · intro g dp r hr
    exact (mem_get_gusto_hours hr).1
  · intro g dp row hrowg hraw hmem
    have hexcl := should_exclude_processGustoName_of_raw hraw
    obtain ⟨r, hr, hrn⟩ := List.mem_map.mp hmem
    have hpass := (mem_get_gusto_hours hr).1
    rw [hrn, hexcl] at hpass
    simp at hpass
  · intro d n hraw hmem
    obtain ⟨r, hr, hrp⟩ := List.mem_map.mp hmem
    obtain ⟨p, hp, rfl⟩ := mem_get_doxy_performance_metrics.mp hr
    obtain ⟨x, hx, hxe⟩ := List.mem_map.mp hp
    have hex := mem_validDurations_not_excluded hx
    rw [should_exclude_eq_rawContains] at hex
    have hxn : x.1 = n := by
      rw [hxe]
      exact hrp
    rw [hxn, hraw] at hex
    simp at hex
  · intro g dp d r hr
    obtain ⟨gr, hgr, mr, hmr, heq, rfl⟩ := mem_get_hours_worked.mp hr
    exact (mem_get_gusto_hours hgr).1

/-- Witness for C8's amended statement: an exactly-denylisted name is absent
from Doxy Visits. -/
theorem C8_exclusion_amended_witness :
    pyStr "dan raphael" ∉
      (get_doxy_visits [⟨pyStr "dan raphael", none⟩]).map (fun v => v.provider) :=
  C8_exclusion_amended.1 [⟨pyStr "dan raphael", none⟩] (pyStr "dan raphael") (by decide)

/-! ### Claim C9 -/

/-- C9: When the three required sources read successfully (and the Doxy
columns are present), report generation succeeds whatever happened to the
booking summary — a failed or missing booking summary simply leaves the
OnceHub Visits sheet out — while a structural failure of the Doxy report (read
failure or missing column), of the account-report decode, or of the Gusto read
yields an error result with a nonempty error list instead of a report. -/
theorem C9_booking_optional :
    (∀ (dt : DoxyTable) (acct : List ProgramRow) (g : List GustoInRow)
        (bk : Option (List BookingRow)),
      dt.hasProvider = true → dt.hasDuration = true →
      generate_report (some dt) (some acct) (some g) bk =
        Except.ok (buildReport dt acct g bk) ∧
      (buildReport dt acct g bk).oncehubVisits = bk.map get_oncehub_visits) ∧
    (∀ (dt : DoxyTable) (acct : List ProgramRow) (g : List GustoInRow),
      (buildReport dt acct g none).oncehubVisits = none) ∧
    (∀ (acct : List ProgramRow) (g : List GustoInRow) (bk : Option (List BookingRow)),
      ∃ e, generate_report none (some acct) (some g) bk = Except.error e ∧ e ≠ []) ∧
    (∀ (dt : DoxyTable) (g : List GustoInRow) (bk : Option (List BookingRow)),
      ∃ e, generate_report (some dt) none (some g) bk = Except.error e ∧ e ≠ []) ∧
    (∀ (dt : DoxyTable) (acct : List ProgramRow) (bk : Option (List BookingRow)),
      ∃ e, generate_report (some dt) (some acct) none bk = Except.error e ∧ e ≠ []) ∧
    (∀ (dt : DoxyTable) (acct : List ProgramRow) (g : List GustoInRow)
        (bk : Option (List BookingRow)),
      dt.hasProvider = false ∨ dt.hasDuration = false →
      ∃ e, generate_report (some dt) (some acct) (some g) bk = Except.error e ∧ e ≠ []) := by
  refine ⟨?_, fun dt acct g => rfl, ?_, ?_, ?_, ?_⟩
  · intro dt acct g bk h1 h2
    have hcond : (dt.hasProvider && dt.hasDuration) = true := by
      rw [h1, h2]
      rfl
    constructor
    · show (if (dt.hasProvider && dt.hasDuration) = true
          then Except.ok (buildReport dt acct g bk)
          else Except.error (reportErrors (some dt) (some acct) (some g))) = _
      rw [if_pos hcond]
    · rfl
  · intro acct g bk
    refine ⟨reportErrors none (some acct) (some g), rfl, ?_⟩
    intro hc
    simp [reportErrors] at hc
  · intro dt g bk
    refine ⟨reportErrors (some dt) none (some g), rfl, ?_⟩
    intro hc
    cases hp : dt.hasProvider <;> cases hd : dt.hasDuration <;>
      simp [reportErrors, hp, hd] at hc
  · intro dt acct bk
    refine ⟨reportErrors (some dt) (some acct) none, rfl, ?_⟩
    intro hc
    cases hp : dt.hasProvider <;> cases hd : dt.hasDuration <;>
      simp [reportErrors, hp, hd] at hc
  · intro dt acct g bk hflag
    have hcond : ¬ (dt.hasProvider && dt.hasDuration) = true := by
      rcases hflag with h | h <;> rw [h] <;> simp
    refine ⟨reportErrors (some dt) (some acct) (some g), ?_, ?_⟩
    · show (if (dt.hasProvider && dt.hasDuration) = true
          then Except.ok (buildReport dt acct g bk)
          else Except.error (reportErrors (some dt) (some acct) (some g))) = _
      rw [if_neg hcond]
    · intro hc
      rcases hflag with h | h <;> simp [reportErrors, h] at hc

/-- Witness for C9: a successful run with the booking summary absent yields a
report without the OnceHub sheet. -/
theorem C9_booking_optional_witness :
    generate_report (some ⟨[], true, true⟩) (some []) (some []) none =
      Except.ok (buildReport ⟨[], true, true⟩ [] [] none) ∧
    (buildReport ⟨[], true, true⟩ [] [] none).oncehubVisits = none :=
  ⟨(C9_booking_optional.1 ⟨[], true, true⟩ [] [] none rfl rfl).1,
   C9_booking_optional.2.1 ⟨[], true, true⟩ [] []⟩

/-! ### Claim C10 -/

/-- C10: The account-report encoding-fallback loop always succeeds — whatever
the utf-16, utf-8 and cp1252 codecs do, the latin-1 candidate decodes every
byte string — so the decoded content is never missing and the "Could not
decode Account Detail Report" error is never emitted once the account source
decodes. -/
theorem C10_decode_fallback_total :
    (∀ (d16 d8 dcp : List (Fin 256) → Option (List Nat)) (bs : List (Fin 256)),
      ∃ c, decodeAccountContent d16 d8 dcp bs = some c) ∧
    (∀ (dx : Option DoxyTable) (acct : List ProgramRow) (gu : Option (List GustoInRow)),
      ReportError.accountDecodeError ∉ reportErrors dx (some acct) gu) := by
  constructor
  · intro d16 d8 dcp bs
    rw [decodeAccountContent]
    cases h1 : d16 bs with
    | some y => exact ⟨y, by simp [firstSome, h1]⟩
    | none =>
      cases h2 : d8 bs with
      | some y => exact ⟨y, by simp [firstSome, h1, h2]⟩
      | none => exact ⟨bs.map (fun b => b.val), by simp [firstSome, h1, h2, decodeLatin1]⟩
  · intro dx acct gu hmem
    rcases dx with _ | ⟨rows, hp, hd⟩
    · rcases gu with _ | g0 <;> simp [reportErrors] at hmem
    · rcases gu with _ | g0 <;> cases hp <;> cases hd <;> simp [reportErrors] at hmem

/-- Witness for C10: the loop succeeds even when the three other codecs reject
every input, and a decoded account source never contributes a decode error. -/
theorem C10_decode_fallback_total_witness :
    (∃ c, decodeAccountContent (fun _ => none) (fun _ => none) (fun _ => none)
      [(0 : Fin 256), 255] = some c) ∧
    ReportError.accountDecodeError ∉ reportErrors none (some []) none :=
  ⟨C10_decode_fallback_total.1 (fun _ => none) (fun _ => none) (fun _ => none)
      [(0 : Fin 256), 255],
   C10_decode_fallback_total.2 none [] none⟩

end ReportGen
